import Mathlib

/-!
Verification of the fetch–parse–persist pipeline in
`scripts/scrape_observer.py`.

The document handed to `parse_rows` is modelled as the list of its text
nodes in document order (the HTML-to-text extraction done by the HTML
library is abstracted away; every claim is phrased in terms of text
nodes).  Python strings become Lean `String`; substring tests (`in`),
`str.strip`, `str.split("  ")` and `str.replace("%", "")` are embedded
as executable character-list functions below.  The CSV artifact is
modelled as the list of its records (one string per record, as produced
by the csv writer); re-reading a record is modelled by a standard CSV
record parser.  Exceptions are modelled by `Except String`, carrying the
exception's message (`str(e)`).
-/

/-- `chStarts pat l` : does `l` start with `pat`?  (helper for Python `in`). -/
def chStarts : List Char → List Char → Bool
  | [], _ => true
  | _ :: _, [] => false
  | p :: ps, c :: cs => p = c && chStarts ps cs

/-- `chHasSub pat l` : does `pat` occur as a contiguous substring of `l`?
Embeds Python's `pat in s` on the underlying characters. -/
def chHasSub (pat : List Char) : List Char → Bool
  | [] => chStarts pat []
  | c :: cs => chStarts pat (c :: cs) || chHasSub pat cs

/-- Python `pat in s` (substring containment). -/
def strHas (s pat : String) : Bool := chHasSub pat.data s.data

/-- The ASCII whitespace characters stripped by Python's `str.strip()`. -/
def isSpaceCh (c : Char) : Bool :=
  c = ' ' || c = '\t' || c = '\n' || c = '\r' || c = '\x0b' || c = '\x0c'

/-- Drop leading whitespace characters. -/
def dropLead : List Char → List Char
  | [] => []
  | c :: cs => if isSpaceCh c then dropLead cs else c :: cs

/-- Python `s.strip()`: remove leading and trailing whitespace. -/
def strTrim (s : String) : String :=
  String.mk ((dropLead (dropLead s.data).reverse).reverse)

/-- Python `s.split("  ")`: cut at every non-overlapping occurrence of two
consecutive spaces, scanning left to right.  `acc` holds the (reversed)
characters of the fragment being built. -/
def splitTwoSpace : List Char → List Char → List (List Char)
  | [], acc => [acc.reverse]
  | [c], acc => [(c :: acc).reverse]
  | c₁ :: c₂ :: cs, acc =>
    if c₁ = ' ' && c₂ = ' ' then acc.reverse :: splitTwoSpace cs []
    else splitTwoSpace (c₂ :: cs) (c₁ :: acc)

/-- Python `s.replace("%", "")`: remove every `%` character. -/
def replacePercent (s : String) : String :=
  String.mk (s.data.filter (fun c => c != '%'))

/-! ## The scraper (`scripts/scrape_observer.py`) -/

/-- The anchor phrases, tried in this priority order (source: `anchors`). -/
def anchors : List String :=
  ["Detailed Results by Constituency", "Constituency Results"]

/-- Source: `stop_markers`. -/
def stop_markers : List String :=
  ["Follow Us", "Connect With Us", "Mobile Apps", "©"]

/-- Source: `status_tokens`. -/
def status_tokens : List String := ["Not Started", "Counting", "Declared"]

/-- Source: `FIELDS`, the fixed CSV field list. -/
def FIELDS : List String :=
  ["constituency", "parish", "candidate", "party", "votes", "percent",
   "status", "boxes"]

/-- Source: `URL`. -/
def URL : String := "https://election.jamaicaobserver.com/2025/"

/-- A result row: the dict literal built by `parse_rows`, as an ordered
association list (arbitrary dicts reach `write_artifacts`, so the type is
not restricted to the eight keys). -/
abbrev Row := List (String × String)

/-- Python `r.get(k, "")`: the value of key `k`, or `""` when absent. -/
def rget (r : Row) (k : String) : String :=
  ((r.find? (fun kv => kv.1 == k)).map Prod.snd).getD ""

/-- `any(m in s for m in stop_markers)`. -/
def stopHit (s : String) : Bool := stop_markers.any (fun m => strHas s m)

/-- `any(tok in s for tok in status_tokens)`. -/
def statusHit (s : String) : Bool :=
  status_tokens.any (fun tok => strHas s tok)

/-- `[p for p in s.split("  ") if p]`: the non-empty double-space-separated
fragments of `s`. -/
def fragments (s : String) : List String :=
  ((splitTwoSpace s.data []).map (fun l => String.mk l)).filter
    (fun p => p != "")

/-- The dict literal appended by `parse_rows` (guarded by
`len(parts) >= 8`, so the defaults never fire there). -/
def mkRow (parts : List String) : Row :=
  [("constituency", parts.getD 0 ""),
   ("parish", parts.getD 1 ""),
   ("candidate", parts.getD 2 ""),
   ("party", parts.getD 3 ""),
   ("votes", parts.getD 4 ""),
   ("percent", replacePercent (parts.getD 5 "")),
   ("status", parts.getD 6 ""),
   ("boxes", parts.getD 7 "")]

/-- The rows contributed by one (already stripped, non-stop) text node. -/
def nodeRows (s : String) : List Row :=
  if statusHit s then
    if 8 ≤ (fragments s).length then [mkRow (fragments s)] else []
  else []

/-- The loop body of `parse_rows` over the text nodes after the anchor:
skip blank nodes, break at a stop marker, otherwise collect `nodeRows`. -/
def processNodes : List String → List Row
  | [] => []
  | node :: rest =>
    let s := strTrim node
    if s = "" then processNodes rest
    else if stopHit s then []
    else nodeRows s ++ processNodes rest

/-- Index of the first element satisfying `p`
(`soup.find(string=...)` over the text nodes). -/
def findFirst (p : String → Bool) : List String → Option Nat
  | [] => none
  | s :: rest => if p s then some 0 else (findFirst p rest).map (· + 1)

/-- The anchor-search loop: try each label in order, taking the first text
node (in document order) that contains it. -/
def findAnchorIn : List String → List String → Option Nat
  | [], _ => none
  | label :: more, nodes =>
    match findFirst (fun s => strHas s label) nodes with
    | some i => some i
    | none => findAnchorIn more nodes

/-- `parse_rows`, over the document's list of text nodes: locate the
anchor, then process every text node strictly after it. -/
def parse_rows (nodes : List String) : List Row :=
  match findAnchorIn anchors nodes with
  | none => []
  | some i => processNodes (nodes.drop (i + 1))

example :
    parse_rows ["Constituency Results",
      "East Kingston  Kingston  Jane Doe  PNP  12345  55.2%  Declared  42",
      "© 2025"] =
    [[("constituency", "East Kingston"), ("parish", "Kingston"),
      ("candidate", "Jane Doe"), ("party", "PNP"), ("votes", "12345"),
      ("percent", "55.2"), ("status", "Declared"), ("boxes", "42")]] := by
  decide

example : parse_rows ["nothing here", "at all"] = [] := by decide

/-! ## CSV encoding (`csv.DictWriter`, default dialect) and decoding
(`csv.reader`), at the level of one record. -/

/-- Double every quote character (the quoted-field body). -/
def escInner : List Char → List Char
  | [] => []
  | c :: cs =>
    if c = '"' then '"' :: '"' :: escInner cs else c :: escInner cs

/-- QUOTE_MINIMAL: a cell is quoted iff it holds a delimiter, a quote or a
line break. -/
def needsQuote (l : List Char) : Bool :=
  l.any (fun c => c = ',' || c = '"' || c = '\n' || c = '\r')

/-- Encode one cell. -/
def encCell (l : List Char) : List Char :=
  if needsQuote l then '"' :: (escInner l ++ ['"']) else l

/-- Encode one record: cells joined by commas. -/
def encRec : List (List Char) → List Char
  | [] => []
  | [f] => encCell f
  | f :: g :: fs => encCell f ++ ',' :: encRec (g :: fs)

/-- One CSV record (line) as the writer emits it. -/
def encodeRecord (cells : List String) : String :=
  String.mk (encRec (cells.map String.data))

/-- Parser state: at a field boundary, inside an unquoted field, inside a
quoted field, or just after a quote inside a quoted field. -/
inductive CsvSt
  | start
  | unq
  | quo
  | quoQ
deriving DecidableEq

/-- One-character-at-a-time CSV record parser (`csv.reader` on one
record).  `acc` is the reversed current field, `out` the reversed list of
finished fields. -/
def csvParseAux : List Char → CsvSt → List Char → List (List Char) →
    List (List Char)
  | [], _, acc, out => (acc.reverse :: out).reverse
  | c :: cs, CsvSt.start, acc, out =>
    if c = '"' then csvParseAux cs CsvSt.quo acc out
    else if c = ',' then csvParseAux cs CsvSt.start [] (acc.reverse :: out)
    else csvParseAux cs CsvSt.unq (c :: acc) out
  | c :: cs, CsvSt.unq, acc, out =>
    if c = ',' then csvParseAux cs CsvSt.start [] (acc.reverse :: out)
    else csvParseAux cs CsvSt.unq (c :: acc) out
  | c :: cs, CsvSt.quo, acc, out =>
    if c = '"' then csvParseAux cs CsvSt.quoQ acc out
    else csvParseAux cs CsvSt.quo (c :: acc) out
  | c :: cs, CsvSt.quoQ, acc, out =>
    if c = '"' then csvParseAux cs CsvSt.quo ('"' :: acc) out
    else if c = ',' then csvParseAux cs CsvSt.start [] (acc.reverse :: out)
    else csvParseAux cs CsvSt.unq (c :: acc) out

/-- Parse one CSV record back into its cells. -/
def parseRecord (s : String) : List String :=
  (csvParseAux s.data CsvSt.start [] []).map (fun l => String.mk l)

/-- The records of `results.csv` as written by `write_artifacts`: the
header, then one record per row with `r.get(k, "")` for each field. -/
def csvRecords (rows : List Row) : List String :=
  encodeRecord FIELDS ::
    rows.map (fun r => encodeRecord (FIELDS.map (fun k => rget r k)))

/-- The JSON payload written to `results.json`. -/
structure Payload where
  source : String
  fetched_at : String
  rows : List Row
  error : Option String
deriving DecidableEq

/-- `write_artifacts(rows)`: the JSON payload and the CSV records. -/
def write_artifacts (ts : String) (rows : List Row) :
    Payload × List String :=
  ({ source := URL, fetched_at := ts, rows := rows, error := none },
   csvRecords rows)

/-- `main()`: the fetch+parse outcome is an `Except` carrying either the
parsed rows or the caught exception's message; the result is the JSON
payload, the CSV records and the return code. -/
def main_model (result : Except String (List Row)) (ts : String) :
    Payload × List String × Nat :=
  match result with
  | Except.ok rows =>
    ((write_artifacts ts rows).1, (write_artifacts ts rows).2, 0)
  | Except.error e =>
    ({ source := URL, fetched_at := ts, rows := [], error := some e },
     [encodeRecord FIELDS], 0)

example :
    encodeRecord FIELDS =
      "constituency,parish,candidate,party,votes,percent,status,boxes" := by
  decide

example : parseRecord "a,\"b,\"\"c\",d" = ["a", "b,\"c", "d"] := by decide

/-! ## Helper lemmas -/

theorem mk_data_eq (s : String) : String.mk s.data = s := rfl

theorem statusHit_empty_false : statusHit "" = false := by decide

theorem stopHit_empty_false : stopHit "" = false := by decide

theorem ne_empty_of_statusHit {s : String} (h : statusHit s = true) :
    s ≠ "" := by
  intro he
  rw [he] at h
  exact absurd h (by decide)

theorem ne_empty_of_stopHit {s : String} (h : stopHit s = true) :
    s ≠ "" := by
  intro he
  rw [he] at h
  exact absurd h (by decide)

theorem processNodes_cons_live (node : String) (rest : List String)
    (h0 : strTrim node ≠ "") (h1 : stopHit (strTrim node) = false) :
    processNodes (node :: rest) =
      nodeRows (strTrim node) ++ processNodes rest := by
  simp [processNodes, h0, h1]

theorem processNodes_cons_blank (node : String) (rest : List String)
    (h0 : strTrim node = "") :
    processNodes (node :: rest) = processNodes rest := by
  simp [processNodes, h0]

theorem processNodes_cons_stop (node : String) (rest : List String)
    (h1 : stopHit (strTrim node) = true) :
    processNodes (node :: rest) = [] := by
  have h0 : strTrim node ≠ "" := ne_empty_of_stopHit h1
  simp [processNodes, h0, h1]

theorem nodeRows_of_big (s : String) (h1 : statusHit s = true)
    (h2 : 8 ≤ (fragments s).length) :
    nodeRows s = [mkRow (fragments s)] := by
  simp [nodeRows, h1, h2]

theorem nodeRows_of_small (s : String) (h2 : (fragments s).length < 8) :
    nodeRows s = [] := by
  have : ¬ 8 ≤ (fragments s).length := by omega
  simp [nodeRows, this]

theorem nodeRows_of_no_status (s : String) (h1 : statusHit s = false) :
    nodeRows s = [] := by
  simp [nodeRows, h1]

theorem findFirst_eq_none (p : String → Bool) :
    ∀ l : List String, (∀ n ∈ l, p n = false) → findFirst p l = none := by
  intro l
  induction l with
  | nil => intro _; rfl
  | cons s rest ih =>
    intro h
    have hs : p s = false := h s (List.mem_cons_self s rest)
    have hr : findFirst p rest = none :=
      ih (fun n hn => h n (List.mem_cons_of_mem s hn))
    simp [findFirst, hs, hr]

theorem findFirst_none_all (p : String → Bool) :
    ∀ l : List String, findFirst p l = none → ∀ n ∈ l, p n = false := by
  intro l
  induction l with
  | nil => intro _ n hn; simp at hn
  | cons s rest ih =>
    intro h n hn
    by_cases hs : p s = true
    · simp [findFirst, hs] at h
    · rcases List.mem_cons.mp hn with rfl | hn'
      · exact Bool.eq_false_iff.mpr hs
      · refine ih ?_ n hn'
        rw [findFirst] at h
        rw [if_neg (by simpa using hs)] at h
        exact Option.map_eq_none'.mp h

theorem findFirst_spec (p : String → Bool) :
    ∀ (l : List String) (i : Nat), findFirst p l = some i →
      i < l.length ∧ p (l.getD i "") = true ∧
        ∀ j, j < i → p (l.getD j "") = false := by
  intro l
  induction l with
  | nil => intro i h; simp [findFirst] at h
  | cons s rest ih =>
    intro i h
    by_cases hs : p s = true
    · rw [findFirst, if_pos (by simpa using hs)] at h
      obtain rfl : (0 : Nat) = i := Option.some.inj h
      refine ⟨by simp, by simpa using hs, ?_⟩
      intro j hj
      omega
    · rw [findFirst, if_neg (by simpa using hs)] at h
      obtain ⟨i', hi', rfl⟩ := Option.map_eq_some'.mp h
      obtain ⟨h1, h2, h3⟩ := ih i' hi'
      refine ⟨by simpa using Nat.succ_lt_succ h1, by simpa using h2, ?_⟩
      intro j hj
      cases j with
      | zero => simpa using Bool.eq_false_iff.mpr hs
      | succ j' => simpa using h3 j' (by omega)

theorem getD_mem_of_lt {α : Type} (l : List α) (i : Nat) (d : α)
    (h : i < l.length) : l.getD i d ∈ l := by
  induction l generalizing i with
  | nil => simp at h
  | cons a l ih =>
    cases i with
    | zero => simp
    | succ j =>
      have : l.getD j d ∈ l := ih j (by simpa using h)
      simpa using Or.inr this

theorem mem_fragments_ne_empty {s p : String} (h : p ∈ fragments s) :
    p ≠ "" := by
  have := List.mem_filter.mp h
  simpa [bne_iff_ne] using this.2

theorem rget_mkRow_percent (parts : List String) :
    rget (mkRow parts) "percent" = replacePercent (parts.getD 5 "") := rfl

theorem rget_mkRow_status (parts : List String) :
    rget (mkRow parts) "status" = parts.getD 6 "" := rfl

theorem replacePercent_eq_empty_iff (s : String) :
    replacePercent s = "" ↔ ∀ c ∈ s.data, c = '%' := by
  unfold replacePercent
  rw [show ("" : String) = String.mk [] from rfl]
  rw [show (String.mk (s.data.filter (fun c => c != '%')) = String.mk []) ↔
        s.data.filter (fun c => c != '%') = [] from
      ⟨fun h => congrArg String.data h, fun h => congrArg String.mk h⟩]
  rw [List.filter_eq_nil_iff]
  constructor
  · intro h c hc
    have := h c hc
    simpa [bne_iff_ne] using this
  · intro h c hc
    simp [bne_iff_ne, h c hc]

/-! ## CSV round-trip lemmas -/

theorem step_start_quote (xs : List Char) (acc : List Char)
    (out : List (List Char)) :
    csvParseAux ('"' :: xs) CsvSt.start acc out =
      csvParseAux xs CsvSt.quo acc out := by
  simp [csvParseAux]

theorem step_start_comma (xs : List Char) (acc : List Char)
    (out : List (List Char)) :
    csvParseAux (',' :: xs) CsvSt.start acc out =
      csvParseAux xs CsvSt.start [] (acc.reverse :: out) := by
  simp [csvParseAux]

theorem step_start_other {c : Char} (h1 : c ≠ '"') (h2 : c ≠ ',')
    (xs : List Char) (acc : List Char) (out : List (List Char)) :
    csvParseAux (c :: xs) CsvSt.start acc out =
      csvParseAux xs CsvSt.unq (c :: acc) out := by
  simp [csvParseAux, h1, h2]

theorem step_unq_comma (xs : List Char) (acc : List Char)
    (out : List (List Char)) :
    csvParseAux (',' :: xs) CsvSt.unq acc out =
      csvParseAux xs CsvSt.start [] (acc.reverse :: out) := by
  simp [csvParseAux]

theorem step_unq_other {c : Char} (h2 : c ≠ ',') (xs : List Char)
    (acc : List Char) (out : List (List Char)) :
    csvParseAux (c :: xs) CsvSt.unq acc out =
      csvParseAux xs CsvSt.unq (c :: acc) out := by
  simp [csvParseAux, h2]

theorem step_quo_quote (xs : List Char) (acc : List Char)
    (out : List (List Char)) :
    csvParseAux ('"' :: xs) CsvSt.quo acc out =
      csvParseAux xs CsvSt.quoQ acc out := by
  simp [csvParseAux]

theorem step_quo_other {c : Char} (h1 : c ≠ '"') (xs : List Char)
    (acc : List Char) (out : List (List Char)) :
    csvParseAux (c :: xs) CsvSt.quo acc out =
      csvParseAux xs CsvSt.quo (c :: acc) out := by
  simp [csvParseAux, h1]

theorem step_quoQ_quote (xs : List Char) (acc : List Char)
    (out : List (List Char)) :
    csvParseAux ('"' :: xs) CsvSt.quoQ acc out =
      csvParseAux xs CsvSt.quo ('"' :: acc) out := by
  simp [csvParseAux]

theorem step_quoQ_comma (xs : List Char) (acc : List Char)
    (out : List (List Char)) :
    csvParseAux (',' :: xs) CsvSt.quoQ acc out =
      csvParseAux xs CsvSt.start [] (acc.reverse :: out) := by
  simp [csvParseAux]

theorem step_end (st : CsvSt) (acc : List Char) (out : List (List Char)) :
    csvParseAux [] st acc out = (acc.reverse :: out).reverse := by
  simp [csvParseAux]

theorem csvParseAux_unq_run (f : List Char) :
    ∀ (acc : List Char) (out : List (List Char)) (rest : List Char),
      (∀ c ∈ f, c ≠ ',') →
      csvParseAux (f ++ ',' :: rest) CsvSt.unq acc out =
        csvParseAux rest CsvSt.start [] ((acc.reverse ++ f) :: out) := by
  induction f with
  | nil => intro acc out rest _; rw [List.nil_append, step_unq_comma]; simp
  | cons c f ih =>
    intro acc out rest hf
    have hc : c ≠ ',' := hf c (List.mem_cons_self c f)
    rw [List.cons_append, step_unq_other hc,
      ih (c :: acc) out rest (fun d hd => hf d (List.mem_cons_of_mem c hd))]
    simp

theorem csvParseAux_unq_end (f : List Char) :
    ∀ (acc : List Char) (out : List (List Char)),
      (∀ c ∈ f, c ≠ ',') →
      csvParseAux f CsvSt.unq acc out =
        ((acc.reverse ++ f) :: out).reverse := by
  induction f with
  | nil => intro acc out _; rw [step_end]; simp
  | cons c f ih =>
    intro acc out hf
    have hc : c ≠ ',' := hf c (List.mem_cons_self c f)
    rw [step_unq_other hc,
      ih (c :: acc) out (fun d hd => hf d (List.mem_cons_of_mem c hd))]
    simp

theorem csvParseAux_quo_run (f : List Char) :
    ∀ (acc : List Char) (out : List (List Char)) (rest : List Char),
      csvParseAux (escInner f ++ '"' :: ',' :: rest) CsvSt.quo acc out =
        csvParseAux rest CsvSt.start [] ((acc.reverse ++ f) :: out) := by
  induction f with
  | nil =>
    intro acc out rest
    rw [show escInner [] = [] from rfl, List.nil_append, step_quo_quote,
      step_quoQ_comma]
    simp
  | cons c f ih =>
    intro acc out rest
    by_cases hc : c = '"'
    · subst hc
      rw [show escInner ('"' :: f) = '"' :: '"' :: escInner f by
            simp [escInner],
        List.cons_append, List.cons_append, step_quo_quote, step_quoQ_quote,
        ih ('"' :: acc) out rest]
      simp
    · rw [show escInner (c :: f) = c :: escInner f by simp [escInner, hc],
        List.cons_append, step_quo_other hc, ih (c :: acc) out rest]
      simp

theorem csvParseAux_quo_end (f : List Char) :
    ∀ (acc : List Char) (out : List (List Char)),
      csvParseAux (escInner f ++ ['"']) CsvSt.quo acc out =
        ((acc.reverse ++ f) :: out).reverse := by
  induction f with
  | nil =>
    intro acc out
    rw [show escInner [] = [] from rfl, List.nil_append, step_quo_quote,
      step_end]
    simp
  | cons c f ih =>
    intro acc out
    by_cases hc : c = '"'
    · subst hc
      rw [show escInner ('"' :: f) = '"' :: '"' :: escInner f by
            simp [escInner],
        List.cons_append, List.cons_append, step_quo_quote, step_quoQ_quote,
        ih ('"' :: acc) out]
      simp
    · rw [show escInner (c :: f) = c :: escInner f by simp [escInner, hc],
        List.cons_append, step_quo_other hc, ih (c :: acc) out]
      simp

theorem not_needsQuote_all {f : List Char} (hq : needsQuote f = false) :
    ∀ c ∈ f, c ≠ ',' ∧ c ≠ '"' := by
  intro c hc
  have h := List.any_eq_false.mp hq c hc
  constructor
  · intro h1; subst h1; simp at h
  · intro h1; subst h1; simp at h

theorem csvParseAux_cell_run (f : List Char) (rest : List Char)
    (out : List (List Char)) :
    csvParseAux (encCell f ++ ',' :: rest) CsvSt.start [] out =
      csvParseAux rest CsvSt.start [] (f :: out) := by
  by_cases hq : needsQuote f = true
  · rw [encCell, if_pos hq,
      show ('"' :: (escInner f ++ ['"'])) ++ ',' :: rest =
          '"' :: (escInner f ++ '"' :: ',' :: rest) by simp,
      step_start_quote, csvParseAux_quo_run]
    simp
  · have hall := not_needsQuote_all (Bool.eq_false_iff.mpr hq)
    rw [encCell, if_neg hq]
    cases f with
    | nil => rw [List.nil_append, step_start_comma]; simp
    | cons c f' =>
      have hc := hall c (List.mem_cons_self c f')
      rw [List.cons_append, step_start_other hc.2 hc.1,
        csvParseAux_unq_run f' [c] out rest
          (fun d hd => (hall d (List.mem_cons_of_mem c hd)).1)]
      simp

theorem csvParseAux_cell_end (f : List Char) (out : List (List Char)) :
    csvParseAux (encCell f) CsvSt.start [] out = (f :: out).reverse := by
  by_cases hq : needsQuote f = true
  · rw [encCell, if_pos hq,
      show '"' :: (escInner f ++ ['"']) =
          ('"' :: (escInner f ++ ['"']) : List Char) from rfl,
      step_start_quote, csvParseAux_quo_end]
    simp
  · have hall := not_needsQuote_all (Bool.eq_false_iff.mpr hq)
    rw [encCell, if_neg hq]
    cases f with
    | nil => rw [step_end]; simp
    | cons c f' =>
      have hc := hall c (List.mem_cons_self c f')
      rw [step_start_other hc.2 hc.1,
        csvParseAux_unq_end f' [c] out
          (fun d hd => (hall d (List.mem_cons_of_mem c hd)).1)]
      simp

theorem csvParseAux_encRec :
    ∀ (fs : List (List Char)) (f : List Char) (out : List (List Char)),
      csvParseAux (encRec (f :: fs)) CsvSt.start [] out =
        out.reverse ++ f :: fs := by
  intro fs
  induction fs with
  | nil =>
    intro f out
    rw [show encRec [f] = encCell f from rfl, csvParseAux_cell_end]
    simp
  | cons g fs' ih =>
    intro f out
    rw [show encRec (f :: g :: fs') = encCell f ++ ',' :: encRec (g :: fs')
          from rfl,
      csvParseAux_cell_run, ih g (f :: out)]
    simp

/-- Writing one CSV record and parsing it back recovers the cells (for a
non-empty cell list; every record of the artifact has eight cells). -/
theorem parseRecord_encodeRecord (cells : List String) (h : cells ≠ []) :
    parseRecord (encodeRecord cells) = cells := by
  cases cells with
  | nil => exact absurd rfl h
  | cons c cs =>
    show ((csvParseAux (encRec (c.data :: cs.map String.data))
        CsvSt.start [] []).map (fun l => String.mk l)) = c :: cs
    rw [csvParseAux_encRec]
    rw [show (([] : List (List Char)).reverse ++
          c.data :: cs.map String.data) = c.data :: cs.map String.data by
        simp]
    rw [show ((c.data :: cs.map String.data).map fun l => String.mk l) =
          String.mk c.data :: (cs.map String.data).map (fun l => String.mk l)
        from rfl]
    rw [List.map_map]
    have hcomp : ((fun l => String.mk l) ∘ String.data) = fun s : String => s := by
      funext s
      rfl
    rw [hcomp, mk_data_eq]
    simp

/-! ## Row-invariant lemmas -/

theorem mem_processNodes (r : Row) :
    ∀ l : List String, r ∈ processNodes l →
      ∃ parts : List String, 8 ≤ parts.length ∧ (∀ p ∈ parts, p ≠ "") ∧
        r = mkRow parts := by
  intro l
  induction l with
  | nil => intro h; simp [processNodes] at h
  | cons node rest ih =>
    intro h
    by_cases h0 : strTrim node = ""
    · exact ih (by rwa [processNodes_cons_blank node rest h0] at h)
    · by_cases h1 : stopHit (strTrim node) = true
      · rw [processNodes_cons_stop node rest h1] at h
        simp at h
      · rw [processNodes_cons_live node rest h0 (Bool.eq_false_iff.mpr h1)]
          at h
        rcases List.mem_append.mp h with hm | hm
        · by_cases h2 : statusHit (strTrim node) = true
          · by_cases h3 : 8 ≤ (fragments (strTrim node)).length
            · rw [nodeRows_of_big _ h2 h3] at hm
              have hr : r = mkRow (fragments (strTrim node)) := by
                simpa using hm
              exact ⟨fragments (strTrim node), h3,
                fun p hp => mem_fragments_ne_empty hp, hr⟩
            · rw [nodeRows_of_small _ (by omega)] at hm
              simp at hm
          · rw [nodeRows_of_no_status _ (Bool.eq_false_iff.mpr h2)] at hm
            simp at hm
        · exact ih hm

theorem mem_parse_rows {nodes : List String} {r : Row}
    (h : r ∈ parse_rows nodes) :
    ∃ parts : List String, 8 ≤ parts.length ∧ (∀ p ∈ parts, p ≠ "") ∧
      r = mkRow parts := by
  unfold parse_rows at h
  cases hf : findAnchorIn anchors nodes with
  | none => rw [hf] at h; simp at h
  | some i => rw [hf] at h; exact mem_processNodes r _ h

theorem mkRow_keys (parts : List String) :
    (mkRow parts).map Prod.fst = FIELDS := rfl

theorem mkRow_values_ne {parts : List String} (hlen : 8 ≤ parts.length)
    (hne : ∀ p ∈ parts, p ≠ "") :
    ∀ k v, (k, v) ∈ mkRow parts → k ≠ "percent" → v ≠ "" := by
  intro k v hkv hk
  have hget : ∀ i, i < 8 → parts.getD i "" ≠ "" := fun i hi =>
    hne _ (getD_mem_of_lt parts i "" (by omega))
  simp only [mkRow, List.mem_cons, List.mem_singleton, Prod.mk.injEq,
    List.not_mem_nil, or_false] at hkv
  rcases hkv with h | h | h | h | h | h | h | h
  · rw [h.2]; exact hget 0 (by omega)
  · rw [h.2]; exact hget 1 (by omega)
  · rw [h.2]; exact hget 2 (by omega)
  · rw [h.2]; exact hget 3 (by omega)
  · rw [h.2]; exact hget 4 (by omega)
  · exact absurd h.1 hk
  · rw [h.2]; exact hget 6 (by omega)
  · rw [h.2]; exact hget 7 (by omega)

/-! ## Claims -/

/-- C1: every text node after the anchor and before a stop-marker node
whose trimmed text contains a status token and splits on the two-space
separator into exactly 8 non-empty fragments contributes exactly one row,
mapping the 8 fragments positionally to constituency, parish, candidate,
party, votes, percent, status, boxes, with every percent sign removed from
the percent fragment; and on the concrete document with anchor
"Constituency Results", the East Kingston data node and a "©" node,
`parse_rows` returns exactly the one expected row. -/
theorem c1_single_row_per_matching_node :
    (∀ (node : String) (rest : List String),
      stopHit (strTrim node) = false →
      statusHit (strTrim node) = true →
      (fragments (strTrim node)).length = 8 →
      processNodes (node :: rest) =
        [("constituency", (fragments (strTrim node)).getD 0 ""),
         ("parish", (fragments (strTrim node)).getD 1 ""),
         ("candidate", (fragments (strTrim node)).getD 2 ""),
         ("party", (fragments (strTrim node)).getD 3 ""),
         ("votes", (fragments (strTrim node)).getD 4 ""),
         ("percent", replacePercent ((fragments (strTrim node)).getD 5 "")),
         ("status", (fragments (strTrim node)).getD 6 ""),
         ("boxes", (fragments (strTrim node)).getD 7 "")] ::
          processNodes rest)
  ∧ parse_rows ["Constituency Results",
      "East Kingston  Kingston  Jane Doe  PNP  12345  55.2%  Declared  42",
      "© 2025"] =
      [[("constituency", "East Kingston"), ("parish", "Kingston"),
        ("candidate", "Jane Doe"), ("party", "PNP"), ("votes", "12345"),
        ("percent", "55.2"), ("status", "Declared"), ("boxes", "42")]] := by
  constructor
  · intro node rest h1 h2 h3
    have h0 : strTrim node ≠ "" := ne_empty_of_statusHit h2
    rw [processNodes_cons_live node rest h0 h1,
      nodeRows_of_big _ h2 (by omega)]
    rfl
  · decide

theorem c1_witness :
    stopHit (strTrim
      "East Kingston  Kingston  Jane Doe  PNP  12345  55.2%  Declared  42")
        = false ∧
    statusHit (strTrim
      "East Kingston  Kingston  Jane Doe  PNP  12345  55.2%  Declared  42")
        = true ∧
    (fragments (strTrim
      "East Kingston  Kingston  Jane Doe  PNP  12345  55.2%  Declared  42")
        ).length = 8 ∧
    processNodes
      ["East Kingston  Kingston  Jane Doe  PNP  12345  55.2%  Declared  42"]
      = [[("constituency", "East Kingston"), ("parish", "Kingston"),
          ("candidate", "Jane Doe"), ("party", "PNP"), ("votes", "12345"),
          ("percent", "55.2"), ("status", "Declared"), ("boxes", "42")]] := by
  refine ⟨by decide, by decide, by decide, ?_⟩
  have h := c1_single_row_per_matching_node.1
    "East Kingston  Kingston  Jane Doe  PNP  12345  55.2%  Declared  42" []
    (by decide) (by decide) (by decide)
  rw [h]
  decide

/-- C3: when no text node contains either anchor phrase, `parse_rows`
returns the empty list (a normal result, not an error). -/
theorem c3_no_anchor_empty (nodes : List String)
    (h : ∀ n ∈ nodes,
      strHas n "Detailed Results by Constituency" = false ∧
      strHas n "Constituency Results" = false) :
    parse_rows nodes = [] := by
  have h1 : findFirst (fun s => strHas s "Detailed Results by Constituency")
      nodes = none := findFirst_eq_none _ nodes (fun n hn => (h n hn).1)
  have h2 : findFirst (fun s => strHas s "Constituency Results") nodes =
      none := findFirst_eq_none _ nodes (fun n hn => (h n hn).2)
  have hA : findAnchorIn anchors nodes = none := by
    simp [findAnchorIn, anchors, h1, h2]
  simp [parse_rows, hA]

theorem c3_witness :
    (∀ n ∈ (["hello", "world  Declared  x  y  z  a  b  c  d"] : List String),
      strHas n "Detailed Results by Constituency" = false ∧
      strHas n "Constituency Results" = false) ∧
    parse_rows ["hello", "world  Declared  x  y  z  a  b  c  d"] = [] :=
  ⟨by decide,
    c3_no_anchor_empty ["hello", "world  Declared  x  y  z  a  b  c  d"]
      (by decide)⟩

/-- C5: once a text node's trimmed text contains a stop marker, that node
and every subsequent node contribute no row, even if a later node would
match the status-token rule. -/
theorem c5_stop_marker_halts (pre : List String) (node : String)
    (post : List String) (h : stopHit (strTrim node) = true) :
    processNodes (pre ++ node :: post) = processNodes (pre ++ [node]) ∧
    processNodes (node :: post) = [] := by
  constructor
  · induction pre with
    | nil =>
      rw [List.nil_append, List.nil_append,
        processNodes_cons_stop _ _ h, processNodes_cons_stop _ _ h]
    | cons m pre ih =>
      rw [List.cons_append, List.cons_append]
      by_cases h0 : strTrim m = ""
      · rw [processNodes_cons_blank _ _ h0, processNodes_cons_blank _ _ h0,
          ih]
      · by_cases h1 : stopHit (strTrim m) = true
        · rw [processNodes_cons_stop _ _ h1, processNodes_cons_stop _ _ h1]
        · rw [processNodes_cons_live _ _ h0 (Bool.eq_false_iff.mpr h1),
            processNodes_cons_live _ _ h0 (Bool.eq_false_iff.mpr h1), ih]
  · exact processNodes_cons_stop _ _ h

theorem c5_witness :
    stopHit (strTrim "Follow Us") = true ∧
    processNodes ["Follow Us",
      "East Kingston  Kingston  Jane Doe  PNP  12345  55.2%  Declared  42"]
      = [] :=
  ⟨by decide,
    (c5_stop_marker_halts [] "Follow Us"
      ["East Kingston  Kingston  Jane Doe  PNP  12345  55.2%  Declared  42"]
      (by decide)).2⟩

/-- C6: a text node whose trimmed text contains a status token but splits
into fewer than 8 non-empty fragments contributes no row (and no error):
processing the document continues exactly as if the node were absent. -/
theorem c6_short_node_skipped (node : String) (rest : List String)
    (h1 : stopHit (strTrim node) = false)
    (h2 : statusHit (strTrim node) = true)
    (h3 : (fragments (strTrim node)).length < 8) :
    processNodes (node :: rest) = processNodes rest := by
  have h0 : strTrim node ≠ "" := ne_empty_of_statusHit h2
  rw [processNodes_cons_live node rest h0 h1, nodeRows_of_small _ h3]
  simp

theorem c6_witness :
    stopHit (strTrim "Declared  too short") = false ∧
    statusHit (strTrim "Declared  too short") = true ∧
    (fragments (strTrim "Declared  too short")).length < 8 ∧
    processNodes ["Declared  too short"] = processNodes [] :=
  ⟨by decide, by decide, by decide,
    c6_short_node_skipped "Declared  too short" []
      (by decide) (by decide) (by decide)⟩

/-- C4: the anchor is the first text node (in document order) containing
"Detailed Results by Constituency"; only when no node contains that phrase
is it the first node containing "Constituency Results" (fixed priority
order); and all rows come only from text nodes strictly after the anchor
node. -/
theorem c4_anchor_priority_and_scope (nodes : List String) :
    ((∃ n ∈ nodes, strHas n "Detailed Results by Constituency" = true) →
      ∃ i, findAnchorIn anchors nodes = some i ∧ i < nodes.length ∧
        strHas (nodes.getD i "") "Detailed Results by Constituency" = true ∧
        ∀ j, j < i →
          strHas (nodes.getD j "") "Detailed Results by Constituency"
            = false)
  ∧ ((∀ n ∈ nodes, strHas n "Detailed Results by Constituency" = false) →
      (∃ n ∈ nodes, strHas n "Constituency Results" = true) →
      ∃ i, findAnchorIn anchors nodes = some i ∧ i < nodes.length ∧
        strHas (nodes.getD i "") "Constituency Results" = true ∧
        ∀ j, j < i → strHas (nodes.getD j "") "Constituency Results"
          = false)
  ∧ (∀ i, findAnchorIn anchors nodes = some i →
      parse_rows nodes = processNodes (nodes.drop (i + 1))) := by
  refine ⟨?_, ?_, ?_⟩
  · rintro ⟨n, hn, hp⟩
    cases hf : findFirst
        (fun s => strHas s "Detailed Results by Constituency") nodes with
    | none =>
      have := findFirst_none_all _ nodes hf n hn
      simp [this] at hp
    | some i =>
      obtain ⟨hlt, hget, hmin⟩ := findFirst_spec _ nodes i hf
      exact ⟨i, by simp [findAnchorIn, anchors, hf], hlt, hget, hmin⟩
  · intro hnone
    rintro ⟨n, hn, hp⟩
    have h1 : findFirst
        (fun s => strHas s "Detailed Results by Constituency") nodes =
        none := findFirst_eq_none _ nodes hnone
    cases hf : findFirst (fun s => strHas s "Constituency Results")
        nodes with
    | none =>
      have := findFirst_none_all _ nodes hf n hn
      simp [this] at hp
    | some i =>
      obtain ⟨hlt, hget, hmin⟩ := findFirst_spec _ nodes i hf
      exact ⟨i, by simp [findAnchorIn, anchors, h1, hf], hlt, hget, hmin⟩
  · intro i hi
    simp [parse_rows, hi]

theorem c4_witness :
    (∃ n ∈ (["before Constituency Results", "x",
        "here are Detailed Results by Constituency"] : List String),
      strHas n "Detailed Results by Constituency" = true) ∧
    ∃ i, findAnchorIn anchors ["before Constituency Results", "x",
        "here are Detailed Results by Constituency"] = some i ∧
      i < (["before Constituency Results", "x",
        "here are Detailed Results by Constituency"] : List String).length ∧
      strHas ((["before Constituency Results", "x",
          "here are Detailed Results by Constituency"] : List String).getD
          i "") "Detailed Results by Constituency" = true ∧
      ∀ j, j < i →
        strHas ((["before Constituency Results", "x",
            "here are Detailed Results by Constituency"] : List String).getD
            j "") "Detailed Results by Constituency" = false :=
  ⟨⟨"here are Detailed Results by Constituency", by decide, by decide⟩,
    (c4_anchor_priority_and_scope ["before Constituency Results", "x",
        "here are Detailed Results by Constituency"]).1
      ⟨"here are Detailed Results by Constituency", by decide, by decide⟩⟩

/-- C2 (amended): on any exception during fetch or parse, the
orchestration writes a JSON payload with `rows = []` and the `error`
field set to the exception's message, writes a header-only CSV, and
returns exit status 0 (the error string is therefore non-empty exactly
when the exception's message is). -/
theorem c2_failure_path (e ts : String) :
    (main_model (Except.error e) ts).1.rows = [] ∧
    (main_model (Except.error e) ts).1.error = some e ∧
    (main_model (Except.error e) ts).2.1 =
      ["constituency,parish,candidate,party,votes,percent,status,boxes"] ∧
    (main_model (Except.error e) ts).2.2 = 0 :=
  ⟨rfl, rfl, rfl, rfl⟩

/-- C2, counterexample to the claim as stated: the code stores `str(e)`
verbatim, so an exception whose message is empty yields an empty — not a
non-empty — error string, while all other parts of the failure snapshot
are as described. -/
theorem c2_empty_error_counterexample :
    (main_model (Except.error "") "2026-09-03T00:00:00Z").1.rows = [] ∧
    (main_model (Except.error "") "2026-09-03T00:00:00Z").1.error
      = some "" ∧
    ¬ (∃ msg, (main_model (Except.error "") "2026-09-03T00:00:00Z").1.error
        = some msg ∧ msg ≠ "") := by
  refine ⟨rfl, rfl, ?_⟩
  rintro ⟨msg, hm, hne⟩
  have h2 : some ("" : String) = some msg := hm
  exact hne (Option.some.inj h2).symm

/-- C7: the CSV artifact always has the fixed eight-field header, one
record per row rendered by `r.get(k, "")` (so a missing key renders as
the empty string), and on an empty row sequence it is exactly the header
while the JSON payload has `rows = []`. -/
theorem c7_csv_fixed_header (rows : List Row) (ts : String) :
    csvRecords rows =
      "constituency,parish,candidate,party,votes,percent,status,boxes" ::
        rows.map (fun r =>
          encodeRecord [rget r "constituency", rget r "parish",
            rget r "candidate", rget r "party", rget r "votes",
            rget r "percent", rget r "status", rget r "boxes"])
  ∧ (∀ (r : Row) (k : String), r.find? (fun kv => kv.1 == k) = none →
      rget r k = "")
  ∧ csvRecords [] =
      ["constituency,parish,candidate,party,votes,percent,status,boxes"]
  ∧ (write_artifacts ts []).1.rows = [] := by
  refine ⟨rfl, ?_, rfl, rfl⟩
  intro r k h
  simp [rget, h]

theorem c7_witness :
    (([(("candidate" : String), ("X" : String))] : Row).find?
      (fun kv => kv.1 == "parish") = none) ∧
    rget [("candidate", "X")] "parish" = "" :=
  ⟨by decide,
    (c7_csv_fixed_header [] "").2.1 [("candidate", "X")] "parish"
      (by decide)⟩

/-- C8: re-parsing the data records of the CSV artifact written for any
row sequence yields exactly one cell list per original row, equal to the
row's eight field values (with the empty string for absent keys), in the
original order. -/
theorem c8_csv_roundtrip (rows : List Row) :
    ((csvRecords rows).drop 1).map parseRecord =
      rows.map (fun r => FIELDS.map (fun k => rget r k)) ∧
    ((csvRecords rows).drop 1).length = rows.length := by
  constructor
  · show (rows.map (fun r =>
        encodeRecord (FIELDS.map (fun k => rget r k)))).map parseRecord = _
    rw [List.map_map]
    refine List.map_congr_left ?_
    intro r _
    exact parseRecord_encodeRecord _ (by simp [FIELDS])
  · simp [csvRecords]

/-- C9: every row produced by `parse_rows` has exactly the eight keys in
the fixed order; every field value except percent is non-empty (fragments
are filtered non-empty); the percent field alone may be empty, exactly
when the sixth fragment consists entirely of percent signs, since every
"%" (not only a trailing one) is removed from it. -/
theorem c9_row_shape :
    (∀ (nodes : List String) (r : Row), r ∈ parse_rows nodes →
      r.map Prod.fst = FIELDS ∧
      ∀ k v, (k, v) ∈ r → k ≠ "percent" → v ≠ "")
  ∧ (∀ parts : List String, 8 ≤ parts.length →
      (rget (mkRow parts) "percent" = "" ↔
        ∀ c ∈ (parts.getD 5 "").data, c = '%'))
  ∧ rget ((parse_rows ["Constituency Results",
      "A  B  C  D  E  %%  Declared  G"]).getD 0 []) "percent" = "" := by
  refine ⟨?_, ?_, by decide⟩
  · intro nodes r hr
    obtain ⟨parts, hlen, hne, rfl⟩ := mem_parse_rows hr
    exact ⟨mkRow_keys parts, mkRow_values_ne hlen hne⟩
  · intro parts _
    rw [rget_mkRow_percent]
    exact replacePercent_eq_empty_iff _

theorem c9_witness :
    (((parse_rows ["Constituency Results",
        "A  B  C  D  E  55.2%  Declared  42"]).getD 0 []).map Prod.fst
      = FIELDS) ∧
    (rget (mkRow ["A", "B", "C", "D", "E", "%%", "Declared", "G"]) "percent"
        = "" ↔
      ∀ c ∈ ((["A", "B", "C", "D", "E", "%%", "Declared", "G"] :
          List String).getD 5 "").data, c = '%') :=
  ⟨(c9_row_shape.1 ["Constituency Results",
      "A  B  C  D  E  55.2%  Declared  42"]
      ((parse_rows ["Constituency Results",
        "A  B  C  D  E  55.2%  Declared  42"]).getD 0 []) (by decide)).1,
    c9_row_shape.2.1 ["A", "B", "C", "D", "E", "%%", "Declared", "G"]
      (by decide)⟩

/-- C10: a text node qualifies as a data row whenever a status token
occurs anywhere in its trimmed text; field assignment is purely
positional, so the emitted status field is the seventh fragment, which is
never validated against the token that triggered the match — witnessed by
a document whose status token sits in the eighth fragment while the
emitted status field "G" contains no status token at all. -/
theorem c10_positional_status :
    (∀ (node : String) (rest : List String),
      stopHit (strTrim node) = false →
      statusHit (strTrim node) = true →
      8 ≤ (fragments (strTrim node)).length →
      processNodes (node :: rest) =
        mkRow (fragments (strTrim node)) :: processNodes rest ∧
      rget (mkRow (fragments (strTrim node))) "status" =
        (fragments (strTrim node)).getD 6 "")
  ∧ parse_rows ["Constituency Results",
      "A  B  C  D  E  F  G  Counting votes now"] =
      [[("constituency", "A"), ("parish", "B"), ("candidate", "C"),
        ("party", "D"), ("votes", "E"), ("percent", "F"), ("status", "G"),
        ("boxes", "Counting votes now")]]
  ∧ statusHit "G" = false := by
  refine ⟨?_, by decide, by decide⟩
  intro node rest h1 h2 h3
  have h0 : strTrim node ≠ "" := ne_empty_of_statusHit h2
  rw [processNodes_cons_live node rest h0 h1, nodeRows_of_big _ h2 h3]
  exact ⟨rfl, rget_mkRow_status _⟩

theorem c10_witness :
    processNodes ["A  B  C  D  E  F  G  Counting votes now"] =
      mkRow (fragments (strTrim "A  B  C  D  E  F  G  Counting votes now"))
        :: processNodes [] ∧
    rget (mkRow (fragments
        (strTrim "A  B  C  D  E  F  G  Counting votes now"))) "status" =
      (fragments
        (strTrim "A  B  C  D  E  F  G  Counting votes now")).getD 6 "" :=
  c10_positional_status.1 "A  B  C  D  E  F  G  Counting votes now" []
    (by decide) (by decide) (by decide)
